import Mathlib

/-!
Shallow embedding of the kernel-client core of `euporie` (`euporie/kernel.py`):
message correlation (`poll` / `await_rsps`), the channel-specific response
consumers (`await_shell_rsps`, `await_iopub_rsps` and the consumers nested in
`run_`), the caller/loop bridge `_aodo`, cell-metadata updates
(`set_metadata`), and the request operations `complete_`, `history_`, `run_`.

Python dictionaries that hold JSON-like data are embedded as association
lists (`List (String × JVal)`), preserving Python's update-in-place /
append-new insertion semantics.  Message dictionaries are embedded as a
structure `Msg` holding the fields the client reads (a missing key read with
`.get` becomes an `Option` field or a defaulted field).  Operations that can
raise a Python exception return `Except Unit _`.
-/

set_option autoImplicit false

namespace Euporie

/-- JSON-like values stored in a cell's `metadata` tree. -/
inductive JVal where
  | obj : List (String × JVal) → JVal
  | str : String → JVal
  | int : Int → JVal

/-- Python `dict.get(key)` on a string-keyed dict: the value bound to the
first (unique) occurrence of the key, if any. -/
def lookupJ : List (String × JVal) → String → Option JVal
  | [], _ => none
  | (k, v) :: rest, key => if k = key then some v else lookupJ rest key

/-- Python `dict[key] = value`: replace the value in place if the key is
present, otherwise append the new binding at the end. -/
def insertJ : List (String × JVal) → String → JVal → List (String × JVal)
  | [], key, val => [(key, val)]
  | (k, v) :: rest, key, val =>
    if k = key then (k, val) :: rest else (k, v) :: insertJ rest key val

/-- The loop body of `NotebookKernel.set_metadata` acting on the metadata
tree: walk the path with `level.setdefault(key, {})`, writing `data` at the
last key.  If a traversed level holds a non-mapping value the subsequent
subscript/`setdefault` on it raises a `TypeError`/`AttributeError` in Python
(before any mutation has happened), embedded as `.error ()`. -/
def setPath : List (String × JVal) → List String → JVal → Except Unit (List (String × JVal))
  | level, [], _ => .ok level
  | level, [key], data => .ok (insertJ level key data)
  | level, key :: rest, data =>
    match lookupJ level key with
    | some (.obj sub) => do
      let sub' ← setPath sub rest data
      .ok (insertJ level key (.obj sub'))
    | some _ => .error ()
    | none => do
      let sub' ← setPath [] rest data
      .ok (insertJ level key (.obj sub'))

/-- Read the value at a nested key path of a metadata tree. -/
def getPath : List (String × JVal) → List String → Option JVal
  | _, [] => none
  | level, [key] => lookupJ level key
  | level, key :: rest =>
    match lookupJ level key with
    | some (.obj sub) => getPath sub rest
    | _ => none

/-- Every existing non-leaf level along the path is a mapping (so
`set_metadata` does not raise). -/
def pathOk : List (String × JVal) → List String → Bool
  | _, [] => true
  | _, [_] => true
  | level, key :: rest =>
    match lookupJ level key with
    | some (.obj sub) => pathOk sub rest
    | some _ => false
    | none => true

/-- Neither key path is a (weak) prefix of the other: the two paths address
disjoint parts of the metadata tree. -/
def unrelated : List String → List String → Bool
  | [], _ => false
  | _ :: _, [] => false
  | a :: as, b :: bs => if a = b then unrelated as bs else true

/-- One output fragment of a cell (`nbformat` v4 output dict), restricted to
the fields this client reads: `output_type`, and `name`/`text` which only
`stream` outputs carry (a missing key read with `.get` yields `none` / `""`,
matching the merge code's defaults). -/
structure Output where
  output_type : String
  name : Option String
  text : String
deriving DecidableEq

/-- The caller-owned cell record (`cell_json`), restricted to the top-level
keys this client reads or writes. -/
structure Cell where
  source : String
  metadata : List (String × JVal)
  outputs : List Output
  execution_count : Option Int

/-- `NotebookKernel.set_metadata`: write `data` at `path` inside
`cell_json["metadata"]`; an empty path writes nothing. -/
def set_metadata (cell : Cell) (path : List String) (data : JVal) : Except Unit Cell := do
  let m' ← setPath cell.metadata path data
  .ok { cell with metadata := m' }

/-- One per-match entry of a completion reply's
`metadata._jupyter_types_experimental` list. -/
structure JupyterMatch where
  start : Option Int
  jtype : Option String
  text : Option String
deriving DecidableEq

/-- A decoded kernel message, restricted to the header/content fields this
client reads.  `msg_type` is `header.msg_type`; the remaining fields come
from `content` (with `.get` defaults as in the source). -/
structure Msg where
  msg_type : String
  status : Option String
  execution_state : Option String
  name : Option String
  text : String
  execution_count : Option Int
  date : String
  jupyter_types : List JupyterMatch
  cursor_start : Option Int
  cmatches : List String
  history : List (Int × Int × String)
deriving DecidableEq

/-- A message with every content field absent/empty. -/
def baseMsg : Msg where
  msg_type := ""
  status := none
  execution_state := none
  name := none
  text := ""
  execution_count := none
  date := ""
  jupyter_types := []
  cursor_start := none
  cmatches := []
  history := []

/-- An iopub `status` message carrying an `execution_state`. -/
def mkStatus (es : String) (d : String) : Msg :=
  { baseMsg with msg_type := "status", execution_state := some es, date := d }

/-- An iopub `stream` message. -/
def mkStream (nm t : String) : Msg :=
  { baseMsg with msg_type := "stream", name := some nm, text := t }

/-- An iopub `error` message. -/
def mkError : Msg :=
  { baseMsg with msg_type := "error" }

/-- A shell `execute_reply` message with a content `status`,
`execution_count` and header date. -/
def mkExecuteReply (s : String) (cnt : Option Int) (d : String) : Msg :=
  { baseMsg with
      msg_type := "execute_reply"
      status := some s
      execution_count := cnt
      date := d }

/-! ## Correlator registration lifecycle (`NotebookKernel.await_rsps`) -/

/-- The Python exception classes that can arrive at a suspension point of the
`await_rsps` generator. -/
inductive PyExc where
  | stopIteration
  | generatorExit
  | cancelledError
deriving DecidableEq

/-- Whether an `except StopIteration` clause handles exception `e`:
`GeneratorExit` and `CancelledError` derive from `BaseException` outside
`Exception`, so only `StopIteration` itself is caught. -/
def catches_StopIteration : PyExc → Bool
  | .stopIteration => true
  | .generatorExit => false
  | .cancelledError => false

/-- How the consumer resumes the `await_rsps` generator after a `yield`:
either it requests the next element, or the runtime throws an exception into
the generator at the suspended `yield` (closing an abandoned generator throws
`GeneratorExit`; `athrow` could deliver others). -/
inductive GenResume where
  | next
  | throwPy (e : PyExc)
deriving DecidableEq

/-- The registration state of `await_rsps` for one `(channel, msg_id)`:
whether `msg_id ∈ self.events[channel]` once the generator has finished or
been abandoned.  The generator starts registered; each `script` element says
how the consumer resumes the `yield` of one delivered message.  On a normal
resumption the `while msg_id in self.events[channel]` loop continues; an
exception thrown in at the `yield` deletes the registration only if the
`except StopIteration` clause catches it, otherwise it propagates (the
`finally` clears only the event).  An exhausted script leaves the generator
suspended at `event.wait()` — including the case of the consuming task being
cancelled there, since `CancelledError` at the `await` is not inside any
`try` — so the registration stays. -/
def await_rsps_registered : Bool → List GenResume → Bool
  | false, _ => false
  | true, [] => true
  | true, r :: rest =>
    match r with
    | .next => await_rsps_registered true rest
    | .throwPy e =>
      if catches_StopIteration e then await_rsps_registered false rest
      else true

/-! ## Single-slot mailbox (`NotebookKernel.poll` dispatch / `await_rsps` read) -/

/-- The per-`(channel, msg_id)` mailbox: `slot` is `self.msgs[channel][msg_id]`,
`eventSet` is the state of `self.events[channel][msg_id]`, and `consumed`
records the messages the registered stream has taken, in order. -/
structure Mailbox where
  slot : Option Nat
  eventSet : Bool
  consumed : List Nat
deriving DecidableEq

/-- The mailbox just after `await_rsps` registers: empty slot, clear event. -/
def mbInit : Mailbox where
  slot := none
  eventSet := false
  consumed := []

/-- An interleaving step: either `poll` dispatches an arriving message for
the registered id, or the registered stream runs one `await_rsps` iteration. -/
inductive MbStep where
  | dispatch (m : Nat)
  | consume
deriving DecidableEq

/-- `poll` lines 237–239: on a message whose parent id is registered, write
`self.msgs[channel][msg_id] = msg` (unconditionally overwriting any previous
message) and set the event.  `consume`: one iteration of `await_rsps` —
enabled once the event is set, it reads and deletes the mailbox entry, yields
the message, and clears the event. -/
def mbStep (mb : Mailbox) : MbStep → Mailbox
  | .dispatch m => { mb with slot := some m, eventSet := true }
  | .consume =>
    if mb.eventSet then
      match mb.slot with
      | some m => { slot := none, eventSet := false, consumed := mb.consumed ++ [m] }
      | none => mb
    else mb

/-- Run an interleaving of dispatches and consumer iterations. -/
def mbRun (mb : Mailbox) (steps : List MbStep) : Mailbox :=
  steps.foldl mbStep mb

/-- The message the slot holds according to the dispatch/consume history:
the most recent dispatch not yet followed by a consume. -/
def slotSpec (steps : List MbStep) : Option Nat :=
  steps.foldl
    (fun _acc s =>
      match s with
      | .dispatch m => some m
      | .consume => none)
    none

/-! ## Request/reply channel consumer (`NotebookKernel.await_shell_rsps`) -/

/-- The stop test of `await_shell_rsps`:
`rsp.get("content", {}).get("status", "") in ("ok", "error")`. -/
def shellStop (m : Msg) : Bool :=
  m.status.getD "" = "ok" || m.status.getD "" = "error"

/-- `NotebookKernel.await_shell_rsps`: the messages the generator yields,
given the sequence of responses delivered for the id on the shell channel.
Each response is yielded; after yielding one whose content status is `ok` or
`error` the generator breaks. -/
def await_shell_rsps : List Msg → List Msg
  | [] => []
  | m :: rest => if shellStop m then [m] else m :: await_shell_rsps rest

/-! ## Caller/loop bridge (`NotebookKernel._aodo`, `wait=True` path) -/

/-- The possible outcomes of `future.result(timeout)` for the scheduled
coroutine. -/
inductive FutureOutcome (α : Type) where
  | completed (v : α)
  | timedOut
  | raised
deriving DecidableEq

/-- The observable effects of one `_aodo(wait=True)` call. -/
structure AodoResult (α : Type) where
  result : Option α
  callbackArg : Option (Option α)
  cancelled : Bool
  escaped : Bool
  warned : Bool
deriving DecidableEq

/-- `NotebookKernel._aodo` with `wait=True`: `result = None`; try
`result = future.result(timeout)`; on `TimeoutError` log iff `warn` and
cancel the future; the `finally` invokes `callback(result)` when a callback
was supplied; `return result`.  An exception other than the timeout (the
coroutine raised) is not caught: the `finally` still runs the callback with
the null result and the exception escapes. -/
def aodo_wait (α : Type) (hasCallback : Bool) (warn : Bool)
    (outcome : FutureOutcome α) : AodoResult α :=
  match outcome with
  | .completed v =>
    { result := some v
      callbackArg := if hasCallback then some (some v) else none
      cancelled := false
      escaped := false
      warned := false }
  | .timedOut =>
    { result := none
      callbackArg := if hasCallback then some none else none
      cancelled := true
      escaped := false
      warned := warn }
  | .raised =>
    { result := none
      callbackArg := if hasCallback then some none else none
      cancelled := false
      escaped := true
      warned := false }

/-! ## The execute operation's iopub consumer
(`NotebookKernel.run_.process_execute_iopub_rsp`, composed with
`await_iopub_rsps`) -/

/-- The mutable state the iopub consumer touches: the caller's cell record,
the kernel status (`self._status`, written by `await_iopub_rsps`), and the
number of invocations of `done_cb` and `output_cb`. -/
structure ExecState where
  cell : Cell
  kernelStatus : Option String
  doneCbCount : Nat
  outputCbCount : Nat

/-- Why the iopub consumer stopped reading responses. -/
inductive IopubExit where
  | exhausted
  | idleStop
  | errorStop
  | raised
deriving DecidableEq

/-- Result of processing one response: continue the `async for`, or leave it. -/
inductive StepOut where
  | cont (st : ExecState)
  | halt (st : ExecState) (e : IopubExit)

/-- `nbformat.v4.output_from_msg`, restricted to the output fields this
client later reads: the output type, and for `stream` outputs the content's
`name` and `text` (other output types carry neither key, so reading them with
`.get` yields `none` / `""`). -/
def output_from_msg (m : Msg) : Output where
  output_type := m.msg_type
  name := if m.msg_type = "stream" then m.name else none
  text := if m.msg_type = "stream" then m.text else ""

/-- The `for output in cell_json.get("outputs", []) ... else` merge loop of
the `stream` branch: find the first output whose `name` equals the stream
message's name and append the text to it (`some` result); `none` means the
loop fell through to its `else` (no matching output). -/
def combineStream : List Output → Option String → String → Option (List Output)
  | [], _, _ => none
  | o :: os, nm, txt =>
    if o.name = nm then some ({ o with text := o.text ++ txt } :: os)
    else (combineStream os nm txt).map (o :: ·)

/-- The tail of the iopub consumer's loop body: `output_cb` runs (its
invocation counter increments), then `if stop: break`; if the consumer does
not break but `await_iopub_rsps` stopped after yielding this response
(`genStop`), the `async for` ends. -/
def afterOutputCb (st : ExecState) (stop genStop : Bool) : StepOut :=
  let st := { st with outputCbCount := st.outputCbCount + 1 }
  if stop then .halt st .errorStop
  else if genStop then .halt st .exhausted
  else .cont st

/-- One response through `await_iopub_rsps` and the body of
`process_execute_iopub_rsp`.  The generator first records the execution
state of a `status` message into `self._status` and decides its own stop
(status `idle` or type `error`); the consumer then branches on the message
type: on status `idle` it stamps the metadata, calls `done_cb` and breaks
(skipping `output_cb`); on status `busy` and on `execute_input` it stamps the
metadata; `display_data`/`execute_result`/`error` outputs are appended (an
`execute_result` also sets the execution count, an `error` sets `stop`);
`stream` text is merged into the first output with the same name, else
appended.  A `TypeError` raised by a metadata write propagates out of the
consumer (`raised`). -/
def iopubStep (st0 : ExecState) (m : Msg) : StepOut :=
  let st :=
    if m.msg_type = "status" then { st0 with kernelStatus := m.execution_state }
    else st0
  let genStop :=
    (m.msg_type = "status" ∧ m.execution_state = some "idle") ∨ m.msg_type = "error"
  if m.msg_type = "status" then
    if m.execution_state = some "idle" then
      match set_metadata st.cell ["iopub", "status", "idle"] (.str m.date) with
      | .error _ => .halt st .raised
      | .ok c =>
        .halt { st with cell := c, doneCbCount := st.doneCbCount + 1 } .idleStop
    else if m.execution_state = some "busy" then
      match set_metadata st.cell ["iopub", "status", "busy"] (.str m.date) with
      | .error _ => .halt st .raised
      | .ok c => afterOutputCb { st with cell := c } false genStop
    else afterOutputCb st false genStop
  else if m.msg_type = "execute_input" then
    match set_metadata st.cell ["iopub", "execute_input"] (.str m.date) with
    | .error _ => .halt st .raised
    | .ok c => afterOutputCb { st with cell := c } false genStop
  else if m.msg_type = "display_data" ∨ m.msg_type = "execute_result"
      ∨ m.msg_type = "error" then
    let c := { st.cell with outputs := st.cell.outputs ++ [output_from_msg m] }
    let c :=
      if m.msg_type = "execute_result" then { c with execution_count := m.execution_count }
      else c
    afterOutputCb { st with cell := c } (m.msg_type = "error") genStop
  else if m.msg_type = "stream" then
    let c :=
      match combineStream st.cell.outputs m.name m.text with
      | some outs => { st.cell with outputs := outs }
      | none => { st.cell with outputs := st.cell.outputs ++ [output_from_msg m] }
    afterOutputCb { st with cell := c } false genStop
  else afterOutputCb st false genStop

/-- `process_execute_iopub_rsp` run over the sequence of iopub responses
delivered for the execute request's id, reporting how it terminated. -/
def process_execute_iopub_rsp (st : ExecState) : List Msg → ExecState × IopubExit
  | [] => (st, .exhausted)
  | m :: rest =>
    match iopubStep st m with
    | .halt st' e => (st', e)
    | .cont st' => process_execute_iopub_rsp st' rest

/-! ## The execute operation's shell consumer
(`NotebookKernel.run_.process_execute_shell_rsp`) -/

/-- The body of `process_execute_shell_rsp` over the responses yielded by
`await_shell_rsps`: a message whose header type is `status` and content
status (default `""`) is `ok` sets the cell's execution count from the
content; a message of type `execute_reply` stamps the reply date into the
metadata at `("execute", "shell", "execute_reply")`.  A metadata `TypeError`
propagates. -/
def shellConsume (c : Cell) : List Msg → Except Unit Cell
  | [] => .ok c
  | m :: rest =>
    if m.msg_type = "status" then
      if m.status.getD "" = "ok" then
        shellConsume { c with execution_count := m.execution_count } rest
      else shellConsume c rest
    else if m.msg_type = "execute_reply" then
      match set_metadata c ["execute", "shell", "execute_reply"] (.str m.date) with
      | .error e => .error e
      | .ok c' => shellConsume c' rest
    else shellConsume c rest

/-- The shell consumer of `run_`, composed with `await_shell_rsps`'s
termination rule. -/
def process_execute_shell_rsp (c : Cell) (msgs : List Msg) : Except Unit Cell :=
  shellConsume c (await_shell_rsps msgs)

/-! ## Request operations (`run_`, `complete_`, `history_`) -/

/-- `run_`: with no started client (`self.kc is None`) it returns before
sending the execute request; otherwise it sends the request and drives the
per-channel consumers against the responses (shown here in one interleaving:
the shell consumer then the iopub consumer; they touch disjoint parts of the
state except for the cell, and the second component reports whether an
execute request was sent). -/
def run_ (kc : Bool) (st : ExecState) (shellMsgs iopubMsgs : List Msg) :
    ExecState × Bool :=
  if !kc then (st, false)
  else
    match process_execute_shell_rsp st.cell shellMsgs with
    | .error _ => ((process_execute_iopub_rsp st iopubMsgs).1, true)
    | .ok c => ((process_execute_iopub_rsp { st with cell := c } iopubMsgs).1, true)

/-- One normalized completion entry: the experimental shape carries the three
keys `text` (possibly null), `start_position` and `display_meta`; the legacy
shape carries only `text` and `start_position`. -/
inductive CompletionItem where
  | experimental (text : Option String) (start_position : Int) (display_meta : Option String)
  | legacy (text : String) (start_position : Int)
deriving DecidableEq

/-- The `status == "ok"` body of `process_complete_shell_rsp`: if the
content's `metadata._jupyter_types_experimental` list is non-empty (truthy),
emit one experimental entry per match, mapping a `"<unknown>"` type to null;
otherwise emit one legacy entry per flat match, all sharing the offset
`cursor_start - cursor_pos` (both defaulting `cursor_start`/`start` to 0). -/
def completionsOfReply (cursor_pos : Int) (m : Msg) : List CompletionItem :=
  if ¬ m.jupyter_types.isEmpty then
    m.jupyter_types.map fun mt =>
      .experimental mt.text (mt.start.getD 0 - cursor_pos)
        (if mt.jtype = some "<unknown>" then none else mt.jtype)
  else
    m.cmatches.map fun t => .legacy t (m.cursor_start.getD 0 - cursor_pos)

/-- `NotebookKernel.complete_`: with no client it returns the empty list;
otherwise it sends a completion request and collects normalized entries from
every `ok`-status response yielded by `await_shell_rsps` (the concurrent
default iopub consumer only drains messages and never touches the results).
The requested code string is only sent to the kernel. -/
def complete_ (kc : Bool) (_code : String) (cursor_pos : Int)
    (shellMsgs : List Msg) : List CompletionItem :=
  if !kc then []
  else
    (await_shell_rsps shellMsgs).foldl
      (fun results rsp =>
        if rsp.status.getD "" = "ok" then results ++ completionsOfReply cursor_pos rsp
        else results)
      []

/-- `NotebookKernel.history_`: with no client it returns the empty list;
otherwise it appends, in order, the `history` triples of every `ok`-status
response yielded by `await_shell_rsps`. -/
def history_ (kc : Bool) (_pat : String) (_n : Nat) (shellMsgs : List Msg) :
    List (Int × Int × String) :=
  if !kc then []
  else
    (await_shell_rsps shellMsgs).foldl
      (fun results rsp =>
        if rsp.status.getD "" = "ok" then results ++ rsp.history else results)
      []

/-! ## Reference states used by concrete instances -/

/-- A fresh cell record: no metadata, no outputs, no execution count. -/
def emptyCell : Cell where
  source := ""
  metadata := []
  outputs := []
  execution_count := none

/-- The consumer state at the start of an execute operation. -/
def execInit : ExecState where
  cell := emptyCell
  kernelStatus := some "idle"
  doneCbCount := 0
  outputCbCount := 0

/-- A legacy-shape `complete_reply`: status ok, shared `cursor_start`, flat
match list, no experimental metadata. -/
def legacyCompleteReply : Msg :=
  { baseMsg with
      msg_type := "complete_reply"
      status := some "ok"
      cursor_start := some 0
      cmatches := ["print"] }

/-- A shell message whose header type is `status` and whose content status is
`ok` (the only message shape whose content `execution_count` the shell
consumer copies into the cell). -/
def mkShellStatusOk (cnt : Option Int) : Msg :=
  { baseMsg with
      msg_type := "status"
      status := some "ok"
      execution_count := cnt }

/-! ## Helper lemmas -/

theorem lookupJ_insertJ_self (l : List (String × JVal)) (k : String) (v : JVal) :
    lookupJ (insertJ l k v) k = some v := by
  induction l with
  | nil => simp [insertJ, lookupJ]
  | cons p rest ih =>
    by_cases h : p.1 = k <;> simp [insertJ, lookupJ, h, ih]

theorem lookupJ_insertJ_other (l : List (String × JVal)) (k j : String) (v : JVal)
    (hjk : j ≠ k) : lookupJ (insertJ l k v) j = lookupJ l j := by
  have hkj : ¬ k = j := fun hh => hjk hh.symm
  induction l with
  | nil => simp [insertJ, lookupJ, hkj]
  | cons p rest ih =>
    obtain ⟨a, b⟩ := p
    by_cases h : a = k
    · subst h
      simp [insertJ, lookupJ, hkj]
    · simp [insertJ, lookupJ, h, ih]

theorem getPath_insertJ_other (l : List (String × JVal)) (k j : String) (v : JVal)
    (qs : List String) (hjk : j ≠ k) :
    getPath (insertJ l k v) (j :: qs) = getPath l (j :: qs) := by
  cases qs with
  | nil => simp [getPath, lookupJ_insertJ_other l k j v hjk]
  | cons q qs' => simp [getPath, lookupJ_insertJ_other l k j v hjk]

theorem pathOk_nil (path : List String) : pathOk [] path = true := by
  cases path with
  | nil => rfl
  | cons k rest => cases rest <;> simp [pathOk, lookupJ]

theorem getPath_nil (q : List String) (hq : q ≠ []) : getPath [] q = none := by
  cases q with
  | nil => exact absurd rfl hq
  | cons a qs => cases qs <;> simp [getPath, lookupJ]

/-- Correctness of the `set_metadata` path walk on well-formed paths: the
walk succeeds, the written value is readable at the path, and every key path
addressing a disjoint part of the tree is untouched. -/
theorem setPath_ok (path : List String) :
    ∀ (level : List (String × JVal)) (data : JVal),
      pathOk level path = true → path ≠ [] →
      ∃ m', setPath level path data = .ok m' ∧
        getPath m' path = some data ∧
        ∀ q, unrelated q path = true → getPath m' q = getPath level q := by
  induction path with
  | nil => intro level data _ hne; exact absurd rfl hne
  | cons k rest ih =>
    intro level data hok _
    cases rest with
    | nil =>
      refine ⟨insertJ level k data, rfl, ?_, ?_⟩
      · simp [getPath, lookupJ_insertJ_self]
      · intro q hq
        cases q with
        | nil => simp [unrelated] at hq
        | cons j qs =>
          by_cases hjk : j = k
          · subst hjk
            simp [unrelated] at hq
            cases qs <;> simp_all [unrelated]
          · exact getPath_insertJ_other level k j data qs hjk
    | cons r rs =>
      have hne' : r :: rs ≠ ([] : List String) := by simp
      cases hl : lookupJ level k with
      | none =>
        obtain ⟨sub', hset, hget, hframe⟩ :=
          ih [] data (pathOk_nil (r :: rs)) hne'
        refine ⟨insertJ level k (.obj sub'), ?_, ?_, ?_⟩
        · simp only [setPath, hl]
          rw [hset]
          rfl
        · simp [getPath, lookupJ_insertJ_self, hget]
        · intro q hq
          cases q with
          | nil => simp [unrelated] at hq
          | cons j qs =>
            by_cases hjk : j = k
            · subst hjk
              have hqs : unrelated qs (r :: rs) = true := by
                simpa [unrelated] using hq
              have hqsne : qs ≠ ([] : List String) := by
                intro h; subst h; simp [unrelated] at hqs
              cases qs with
              | nil => exact absurd rfl hqsne
              | cons q1 qs' =>
                have := hframe (q1 :: qs') hqs
                simp [getPath, lookupJ_insertJ_self, hl] at this ⊢
                rw [this, getPath_nil (q1 :: qs') (by simp)]
            · exact getPath_insertJ_other level k j (.obj sub') qs hjk
      | some sub =>
        cases sub with
        | obj subl =>
          have hok' : pathOk subl (r :: rs) = true := by
            simpa [pathOk, hl] using hok
          obtain ⟨sub', hset, hget, hframe⟩ := ih subl data hok' hne'
          refine ⟨insertJ level k (.obj sub'), ?_, ?_, ?_⟩
          · simp only [setPath, hl]
            rw [hset]
            rfl
          · simp [getPath, lookupJ_insertJ_self, hget]
          · intro q hq
            cases q with
            | nil => simp [unrelated] at hq
            | cons j qs =>
              by_cases hjk : j = k
              · subst hjk
                have hqs : unrelated qs (r :: rs) = true := by
                  simpa [unrelated] using hq
                have hqsne : qs ≠ ([] : List String) := by
                  intro h; subst h; simp [unrelated] at hqs
                cases qs with
                | nil => exact absurd rfl hqsne
                | cons q1 qs' =>
                  have := hframe (q1 :: qs') hqs
                  simp [getPath, lookupJ_insertJ_self, hl] at this ⊢
                  rw [this]
              · exact getPath_insertJ_other level k j (.obj sub') qs hjk
        | str s => simp [pathOk, hl] at hok
        | int i => simp [pathOk, hl] at hok

/-- The `done_cb` invocation count across one response step: it increments
exactly on the consumer's idle-status break and is untouched on every other
path (including the error break, which skips `done_cb`). -/
theorem iopubStep_halt_done (st : ExecState) (m : Msg) (st' : ExecState)
    (e : IopubExit) (h : iopubStep st m = StepOut.halt st' e) :
    st'.doneCbCount = st.doneCbCount + (if e = IopubExit.idleStop then 1 else 0) := by
  unfold iopubStep afterOutputCb at h
  dsimp only at h
  repeat' split at h
  all_goals first
    | (injection h with h1 h2; subst h1; subst h2; simp)
    | injection h

/-- A continuing response step never invokes `done_cb`. -/
theorem iopubStep_cont_done (st : ExecState) (m : Msg) (st' : ExecState)
    (h : iopubStep st m = StepOut.cont st') :
    st'.doneCbCount = st.doneCbCount := by
  unfold iopubStep afterOutputCb at h
  dsimp only at h
  repeat' split at h
  all_goals first
    | (injection h with h1; subst h1; simp)
    | injection h

/-! ## Claim theorems -/

/-- C1: on the exit paths this program actually takes — the consumer breaks
out of the `async for` after any number of yielded responses (the abandoned
generator is closed with `GeneratorExit`), or the consuming task is cancelled
while the generator waits (`CancelledError` at the `await`, or the generator
simply left suspended) — the `events`-map registration for the id is NOT
removed: the `except StopIteration` cleanup clause of `await_rsps` never
matches either exception, so the claimed guaranteed cleanup fails and a
late-arriving message for the id is still dispatched into the mailbox rather
than treated as stray. -/
theorem await_rsps_registration_leaks (k : Nat) :
    await_rsps_registered true
        (List.replicate k GenResume.next ++ [GenResume.throwPy PyExc.generatorExit]) = true
    ∧ await_rsps_registered true
        (List.replicate k GenResume.next ++ [GenResume.throwPy PyExc.cancelledError]) = true
    ∧ await_rsps_registered true (List.replicate k GenResume.next) = true := by
  induction k with
  | zero => exact ⟨rfl, rfl, rfl⟩
  | succ n ih =>
    simpa [List.replicate_succ, await_rsps_registered] using ih

/-- C2 counterexample: an execute operation whose broadcast stream is a
`busy` status followed by an `error` message terminates on the error path
with `done_cb` never invoked — refuting the claim that `done_callback` fires
on the error-terminated path as well. -/
theorem done_cb_error_path_counterexample :
    (process_execute_iopub_rsp execInit [mkStatus "busy" "t0", mkError]).2
        = IopubExit.errorStop
    ∧ (process_execute_iopub_rsp execInit [mkStatus "busy" "t0", mkError]).1.doneCbCount
        = 0 :=
  ⟨rfl, rfl⟩

/-- C2 (amended): for every execute operation, `done_cb` is invoked exactly
once when the broadcast consumer reaches a status message with
execution-state idle, and is not invoked at all when the consumer terminates
any other way — on a message of type error, by message exhaustion, or by an
escaping metadata exception. -/
theorem done_cb_fires_iff_idle_stop (st : ExecState) (msgs : List Msg) :
    (process_execute_iopub_rsp st msgs).1.doneCbCount =
      st.doneCbCount +
        (if (process_execute_iopub_rsp st msgs).2 = IopubExit.idleStop then 1 else 0) := by
  induction msgs generalizing st with
  | nil => simp [process_execute_iopub_rsp]
  | cons m rest ih =>
    unfold process_execute_iopub_rsp
    cases h : iopubStep st m with
    | halt st' e =>
      simpa using iopubStep_halt_done st m st' e h
    | cont st' =>
      have hc := iopubStep_cont_done st m st' h
      simpa [hc] using ih st'

/-- C3: within one execute operation, two consecutive stream messages with
the same name leave exactly one output fragment whose text is the ordered
concatenation of the two texts — in particular texts `"ab"` then `"cd"` on
name `stdout` leave exactly one output `{name: stdout, text: "abcd"}`. -/
theorem consecutive_stream_outputs_merge (nm t1 t2 : String) (st : ExecState) :
    (process_execute_iopub_rsp { st with cell := { st.cell with outputs := [] } }
        [mkStream nm t1, mkStream nm t2]).1.cell.outputs
      = [{ output_type := "stream", name := some nm, text := t1 ++ t2 }] := by
  simp [process_execute_iopub_rsp, iopubStep, mkStream, baseMsg, afterOutputCb,
    output_from_msg, combineStream]

/-- C4: the shell-channel response stream yields every response up to and
including the first whose content status is `ok` or `error`, and nothing
delivered for the id after that point. -/
theorem await_shell_rsps_stops_at_first_terminal (pre post : List Msg) (m : Msg)
    (hpre : ∀ x ∈ pre, shellStop x = false) (hm : shellStop m = true) :
    await_shell_rsps (pre ++ m :: post) = pre ++ [m] := by
  induction pre with
  | nil => simp [await_shell_rsps, hm]
  | cons a as ih =>
    have ha : shellStop a = false := hpre a (by simp)
    simp [await_shell_rsps, ha, ih (fun x hx => hpre x (by simp [hx]))]

/-- C4 witness: a non-terminal response followed by an `ok` reply and a late
message — the stream yields the first two and never the third. -/
theorem await_shell_rsps_stops_at_first_terminal_witness :
    await_shell_rsps [baseMsg, mkExecuteReply "ok" (some 1) "d", baseMsg]
      = [baseMsg, mkExecuteReply "ok" (some 1) "d"] :=
  await_shell_rsps_stops_at_first_terminal [baseMsg] [baseMsg]
    (mkExecuteReply "ok" (some 1) "d")
    (by intro x hx; simp at hx; subst hx; rfl) rfl

/-- C5 counterexample: `poll` dispatches message 1 to the registered id, then
dispatches message 2 before the waiting stream has run; the slot is
overwritten while message 1 is still unconsumed, and after the consumer's
iteration only message 2 was ever consumed and the slot is empty — message 1
is lost, refuting overwrite-only-after-consumption. -/
theorem mailbox_overwrite_loses_message :
    (mbRun mbInit [MbStep.dispatch 1, MbStep.dispatch 2, MbStep.consume]).consumed = [2]
    ∧ (mbRun mbInit [MbStep.dispatch 1, MbStep.dispatch 2, MbStep.consume]).slot = none :=
  ⟨rfl, rfl⟩

/-- Invariant of the mailbox: the event is set exactly when the slot is full,
and under that invariant the slot always holds the most recent dispatch not
yet followed by a consumer iteration. -/
theorem mbRun_slot (steps : List MbStep) :
    ∀ mb : Mailbox, mb.eventSet = mb.slot.isSome →
      (mbRun mb steps).slot =
        steps.foldl
          (fun _acc s =>
            match s with
            | MbStep.dispatch m => some m
            | MbStep.consume => none)
          mb.slot
      ∧ (mbRun mb steps).eventSet = (mbRun mb steps).slot.isSome := by
  induction steps with
  | nil => intro mb hinv; exact ⟨rfl, hinv⟩
  | cons s rest ih =>
    intro mb hinv
    cases s with
    | dispatch m =>
      simpa [mbRun, mbStep, List.foldl] using
        ih { mb with slot := some m, eventSet := true } (by simp)
    | consume =>
      cases hslot : mb.slot with
      | some m =>
        have hev : mb.eventSet = true := by simp [hinv, hslot]
        simpa [mbRun, mbStep, List.foldl, hev, hslot] using
          ih { slot := none, eventSet := false, consumed := mb.consumed ++ [m] }
            (by simp)
      | none =>
        have hev : mb.eventSet = false := by simp [hinv, hslot]
        simpa [mbRun, mbStep, List.foldl, hev, hslot] using ih mb hinv

/-- C5 (amended): per pending request, the single-slot mailbox holds the most
recent undelivered message, but a newly arriving message overwrites the slot
unconditionally — whether or not the previous message has been consumed — so
the consumer only ever receives the most recently dispatched message. -/
theorem mailbox_holds_latest_dispatch (steps : List MbStep) :
    (mbRun mbInit steps).slot = slotSpec steps
    ∧ ∀ m : Nat, (mbRun mbInit (steps ++ [MbStep.dispatch m])).slot = some m := by
  refine ⟨(mbRun_slot steps mbInit rfl).1, fun m => ?_⟩
  simp [mbRun, List.foldl_append, mbStep]

/-- C6: when a waited `_aodo` call times out, the scheduled work is
cancelled, the supplied callback is invoked with the null result, and the
caller receives the absent result with no exception escaping. -/
theorem aodo_timeout_resolves_absent (α : Type) (warn : Bool) :
    aodo_wait α true warn FutureOutcome.timedOut =
      { result := none
        callbackArg := some none
        cancelled := true
        escaped := false
        warned := warn } :=
  rfl

/-- C7: `complete_("pri", 3)` against a kernel replying in the legacy shape
with matches `["print"]` and `cursor_start = 0` yields exactly one entry with
text `"print"` and start offset `-3` relative to the cursor. -/
theorem complete_legacy_shape_normalization :
    complete_ true "pri" 3 [legacyCompleteReply]
      = [CompletionItem.legacy "print" (-3)] :=
  rfl

/-- C8: evaluating the shell consumer at the execute reply (header type
`execute_reply`, content status `ok`, execution count 5, reply date `"T"`)
shows it records the reply timestamp into the metadata tree but leaves the
cell's execution counter untouched — the counter is copied only from a shell
message whose *header* type is `status` (second conjunct), a message shape
the shell channel never carries, so the reply does not update the counter as
the claim states. -/
theorem execute_shell_reply_updates :
    process_execute_shell_rsp emptyCell [mkExecuteReply "ok" (some 5) "T"]
      = .ok { emptyCell with
          metadata :=
            [("execute", .obj [("shell", .obj [("execute_reply", .str "T")])])] }
    ∧ process_execute_shell_rsp emptyCell [mkShellStatusOk (some 7)]
      = .ok { emptyCell with execution_count := some 7 } :=
  ⟨rfl, rfl⟩

/-- C9: with no started channel client, `complete_` and `history_` return
the empty list and `run_` returns with the caller's record unmodified and no
request sent. -/
theorem no_client_noop_operations (code pat : String) (pos : Int) (n : Nat)
    (st : ExecState) (sm im hm : List Msg) :
    complete_ false code pos sm = []
    ∧ history_ false pat n hm = []
    ∧ run_ false st sm im = (st, false) :=
  ⟨rfl, rfl, rfl⟩

/-- C10 counterexample: with the metadata mapping `{"a": 5}` and the
non-empty path `("a", "b")`, `set_metadata` raises (the traversed level
`"a"` holds a non-mapping) instead of storing the value — so the claim does
not hold for every record and non-empty path. -/
theorem set_metadata_nonmapping_level_raises :
    set_metadata { emptyCell with metadata := [("a", JVal.int 5)] }
        ["a", "b"] (JVal.str "v") = .error () :=
  rfl

/-- C10 (amended): for an empty path `set_metadata` leaves the record
entirely unchanged; for a non-empty path whose existing non-leaf levels are
all mappings, it stores the value at the nested path under the record's
metadata key (creating empty intermediate mappings where levels are missing,
overwriting only the leaf — every metadata path addressing a disjoint part
of the tree keeps its value), and every top-level key of the record other
than metadata is unchanged; if an existing non-leaf level is not a mapping,
the call raises a type error instead. -/
theorem set_metadata_spec (cell : Cell) (path : List String) (data : JVal) :
    set_metadata cell [] data = .ok cell
    ∧ (pathOk cell.metadata path = true → path ≠ [] →
        ∃ m', set_metadata cell path data = .ok { cell with metadata := m' }
          ∧ getPath m' path = some data
          ∧ ∀ q, unrelated q path = true → getPath m' q = getPath cell.metadata q) := by
  constructor
  · rfl
  · intro hok hne
    obtain ⟨m', hset, hget, hframe⟩ := setPath_ok path cell.metadata data hok hne
    refine ⟨m', ?_, hget, hframe⟩
    simp only [set_metadata]
    rw [hset]
    rfl

/-- C10 witness: writing the idle timestamp path into a fresh cell. -/
theorem set_metadata_spec_witness :
    ∃ m', set_metadata emptyCell ["iopub", "status", "idle"] (JVal.str "t")
        = .ok { emptyCell with metadata := m' }
      ∧ getPath m' ["iopub", "status", "idle"] = some (JVal.str "t")
      ∧ ∀ q, unrelated q ["iopub", "status", "idle"] = true →
          getPath m' q = getPath emptyCell.metadata q :=
  (set_metadata_spec emptyCell ["iopub", "status", "idle"] (JVal.str "t")).2
    rfl (by simp)

end Euporie
